import Mathlib

/-!
Verification development for the vector-retrieval core of the repository:
`text_utils.py` (chunker) and `vector_store.py` (FAISS vector store wrapper).

Texts are modelled as `List Char` (Python `str`), vector components as `ℚ`
(Python floats; no claim here depends on floating-point rounding), Python
`dict`s as insertion-ordered association lists with unique keys, and
fallible Python code as `Except`-valued or error-flag-returning functions.
-/

set_option maxRecDepth 10000

namespace ArchAI

/-! ### Python dictionary model

Python `dict`: insertion-ordered, unique keys.  Assignment `d[k] = v`
overwrites in place when `k` is present, otherwise appends; `d.get(k)`
returns the value or `None`; `len(d)` is the entry count. -/

def dictSet {κ α : Type} [DecidableEq κ] (d : List (κ × α)) (k : κ) (v : α) :
    List (κ × α) :=
  if d.any (fun kv => kv.1 = k) then
    d.map (fun kv => if kv.1 = k then (k, v) else kv)
  else
    d ++ [(k, v)]

def dictGet {κ α : Type} [DecidableEq κ] (d : List (κ × α)) (k : κ) : Option α :=
  (d.find? (fun kv => kv.1 = k)).map (fun kv => kv.2)

def dictLen {κ α : Type} (d : List (κ × α)) : Nat := d.length

def dictKeys {κ α : Type} (d : List (κ × α)) : List κ := d.map Prod.fst

/-! ### Documents (`text_utils.Document`)

`Document(page_content, metadata)`; metadata is an arbitrary provenance
mapping, modelled as a string-to-string association list (no claim inspects
metadata values beyond copying them). -/

structure Document where
  page_content : List Char
  metadata : List (String × String)
deriving DecidableEq, Repr

/-! ### Text splitter (`text_utils.TextSplitter`) -/

structure TextSplitter where
  chunk_size : Nat
  chunk_overlap : Nat
  separators : List (List Char)
deriving Repr

/-- Default separator list `["\n\n", "\n", " ", ""]`. -/
def defaultSeparators : List (List Char) :=
  [['\n', '\n'], ['\n'], [' '], []]

def defaultSplitter : TextSplitter :=
  { chunk_size := 1000, chunk_overlap := 200, separators := defaultSeparators }

/-- Python `text.split(sep)` for a nonempty separator `sep`, via explicit
fuel (one unit per scanned character; `text.length + 1` always suffices). -/
def pySplitAux (sep : List Char) : Nat → List Char → List Char → List (List Char)
  | 0, acc, rest => [acc.reverse ++ rest]
  | fuel + 1, acc, rest =>
    if sep.isPrefixOf rest then
      acc.reverse :: pySplitAux sep fuel [] (rest.drop sep.length)
    else
      match rest with
      | [] => [acc.reverse]
      | c :: cs => pySplitAux sep fuel (c :: acc) cs

def pySplit (sep text : List Char) : List (List Char) :=
  pySplitAux sep (text.length + 1) [] text

/-- Python slice `s[-k:]` (note `s[-0:]` is the whole string). -/
def pyTakeLast (k : Nat) (xs : List Char) : List Char :=
  if k = 0 then xs else xs.drop (xs.length - k)

/-- Python whitespace characters recognised by `str.strip()` (ASCII range;
no claim involves other Unicode whitespace). -/
def pyIsSpace (c : Char) : Bool :=
  c = ' ' || c = '\t' || c = '\n' || c = '\r' || c = '\x0b' || c = '\x0c'

/-- Truthiness of `chunk.strip()`: the chunk has a non-whitespace character. -/
def hasNonSpace (cs : List Char) : Bool := cs.any (fun c => !pyIsSpace c)

/-- Fuel-driven body of `_split_by_size`; for a step width `n ≥ 1`, fuel
`text.length` always suffices (each step strictly shortens the text). -/
def splitBySizeAux (n : Nat) : Nat → List Char → List (List Char)
  | _, [] => []
  | 0, text => [text]
  | fuel + 1, text => text.take n :: splitBySizeAux n fuel (text.drop n)

/-- `TextSplitter._split_by_size`: fixed-width slices of `chunk_size`
characters.  (Python `range(0, len, 0)` would raise `ValueError`; the
`n = 0` branch is unreachable from the claims, which use positive chunk
sizes.) -/
def splitBySize (n : Nat) (text : List Char) : List (List Char) :=
  if n = 0 then [] else splitBySizeAux n text.length text

/-- `TextSplitter._join_chunks`: `" ".join` when `" "` is a separator,
else plain concatenation. -/
def joinChunks (t : TextSplitter) (chunks : List (List Char)) : List Char :=
  if [' '] ∈ t.separators then List.intercalate [' '] chunks else chunks.flatten

/-- Inner recursion of `TextSplitter.split_text` (`_split_text_recursive`):
split on the first separator, keep pieces that fit in `chunk_size`, recurse
with the finer separators on oversized pieces.  Fuel counts recursion depth;
it only decreases together with the separator list, so `separators.length + 1`
always suffices (see `splitText`). -/
def splitTextRec (cs : Nat) : Nat → List (List Char) → List Char → List (List Char)
  | 0, _, _ => []
  | _ + 1, [], text => splitBySize cs text
  | fuel + 1, sep :: rest, text =>
    if sep = [] then splitBySize cs text
    else
      (pySplit sep text).flatMap
        (fun s => if s.length ≤ cs then [s] else splitTextRec cs fuel rest s)

/-- The overlap seed carried into the next chunk
(`chunk_text[-self.chunk_overlap:] if len(chunk_text) > self.chunk_overlap
else chunk_text`): the trailing `chunk_overlap` characters of the previous
chunk, the whole chunk when it is no longer than the overlap, and — through
Python's `[-0:]` slice — also the whole chunk when `chunk_overlap = 0`. -/
def overlapKeep (t : TextSplitter) (a : List Char) : List Char :=
  if a.length > t.chunk_overlap then pyTakeLast t.chunk_overlap a else a

/-- `TextSplitter._merge_splits`, before the final whitespace filter.
State: the pieces of the chunk under construction and Python's
`current_length` counter (which counts the overlap seed even when the seed
is dropped from `current_chunk` because it or the triggering piece is
empty).  `overlapKeep t (joinChunks t currentChunk)` is the source's
`overlap_text`. -/
def mergeSplitsAux (t : TextSplitter) :
    List (List Char) → List (List Char) → Nat → List (List Char)
  | [], currentChunk, _ =>
    if currentChunk ≠ [] then [joinChunks t currentChunk] else []
  | split :: rest, currentChunk, currentLength =>
    if currentLength + split.length > t.chunk_size ∧ currentChunk ≠ [] then
      joinChunks t currentChunk ::
        mergeSplitsAux t rest
          (if overlapKeep t (joinChunks t currentChunk) ≠ [] ∧ split ≠ [] then
            [overlapKeep t (joinChunks t currentChunk), split]
          else [split])
          ((overlapKeep t (joinChunks t currentChunk)).length + split.length)
    else
      mergeSplitsAux t rest (currentChunk ++ [split]) (currentLength + split.length)

/-- `TextSplitter._merge_splits` (with the trailing
`[chunk for chunk in chunks if chunk.strip()]` filter). -/
def mergeSplits (t : TextSplitter) (splits : List (List Char)) : List (List Char) :=
  (mergeSplitsAux t splits [] 0).filter hasNonSpace

/-- `TextSplitter.split_text`. -/
def splitText (t : TextSplitter) (text : List Char) : List (List Char) :=
  mergeSplits t (splitTextRec t.chunk_size (t.separators.length + 1) t.separators text)

/-- `TextSplitter.split_documents`: each document's text is split and each
chunk carries a copy of the source document's metadata. -/
def splitDocuments (t : TextSplitter) (docs : List Document) : List Document :=
  docs.flatMap (fun doc =>
    (splitText t doc.page_content).map
      (fun c => { page_content := c, metadata := doc.metadata }))

/-! ### Vector store (`vector_store.FAISSVectorStore`) -/

/-- Errors surfaced by the store operations (the Python code raises the
corresponding `ValueError` / numpy shape error / faiss dimension assertion;
the spec's conceptual names are `DimensionMismatch` etc.). -/
inductive VSError where
  /-- numpy cannot form a 2-d `float32` array (ragged or empty batch). -/
  | numpyShapeError
  /-- faiss `index.add` rejects vectors whose length differs from `index.d`. -/
  | dimensionMismatch
  /-- `load_local` without `allow_dangerous_deserialization=True`. -/
  | valueError
deriving DecidableEq, Repr

/-- `np.array(embeddings_list).astype('float32')` followed by reading
`shape[1]`: succeeds only on a nonempty rectangular batch, returning the
common row length (the dimension) and the rows. -/
def np2d (rows : List (List ℚ)) : Option (Nat × List (List ℚ)) :=
  match rows with
  | [] => none
  | v :: vs => if ∀ w ∈ vs, w.length = v.length then some (v.length, rows) else none

/-- A value held in the docstore `dict`.  Python stores arbitrary objects:
our `Document`, the stub `LangChainDocument` unpickled from a legacy file
(content in direct attributes), the nested pydantic shell (content inside
`__dict__['__dict__']`), or an unrecognised object. -/
inductive PyDocValue where
  | ourDoc (d : Document)
  | lcDoc (page_content : List Char) (metadata : List (String × String))
  | pyShell (page_content : List Char) (metadata : List (String × String))
  | other
deriving DecidableEq, Repr

/-- `faiss.IndexFlatL2`: fixed dimension `d` plus the stored vectors in
insertion order (`ntotal = vectors.length`). -/
structure FaissIndex where
  d : Nat
  vectors : List (List ℚ)
deriving DecidableEq, Repr

/-- Embedding provider interface (`embeddings.EmbeddingsProvider`),
an opaque pair of total functions. -/
structure EmbeddingProvider where
  embed_documents : List (List Char) → List (List ℚ)
  embed_query : List Char → List ℚ

/-- `FAISSVectorStore` state.  Stores reachable through `from_documents` /
`load_local` always carry an index, so the `index=None` default of
`__init__` is not modelled. -/
structure FAISSVectorStore where
  embeddings : EmbeddingProvider
  index : FaissIndex
  docstore : List (Nat × PyDocValue)
  index_to_docstore_id : List (Nat × Nat)

/-- `FAISSVectorStore.from_documents`: embed all texts in one batch, build
a fresh `IndexFlatL2` of the batch's dimension holding all returned rows,
and key the docstore / slot mapping by `0 .. len(documents)-1`.
No check relates the returned row count to the document count. -/
def from_documents (documents : List Document) (provider : EmbeddingProvider) :
    Except VSError FAISSVectorStore :=
  match np2d (provider.embed_documents (documents.map (fun d => d.page_content))) with
  | none => .error .numpyShapeError
  | some (dimension, rows) =>
    .ok { embeddings := provider
          index := { d := dimension, vectors := rows }
          docstore :=
            (List.range documents.length).map
              (fun i => (i, .ourDoc (documents.getD i ⟨[], []⟩)))
          index_to_docstore_id := (List.range documents.length).map (fun i => (i, i)) }

/-- Result of `add_documents`: the raised error, if any, together with the
post-call store.  In the source every raise (numpy conversion, faiss
dimension assertion) happens before `self.index.add` mutates anything, so
an error leaves the store exactly as it was. -/
structure AddResult where
  error : Option VSError
  store : FAISSVectorStore

/-- `FAISSVectorStore.add_documents`: embed the new chunks, append their
vectors after slot `current_count = index.ntotal`, and insert docstore /
slot-mapping entries keyed `current_count + i`. -/
def add_documents (s : FAISSVectorStore) (documents : List Document) : AddResult :=
  if documents = [] then ⟨none, s⟩
  else
    match np2d (s.embeddings.embed_documents (documents.map (fun d => d.page_content))) with
    | none => ⟨some .numpyShapeError, s⟩
    | some (d2, rows) =>
      if d2 ≠ s.index.d then ⟨some .dimensionMismatch, s⟩
      else
        ⟨none,
         { embeddings := s.embeddings
           index := { d := s.index.d, vectors := s.index.vectors ++ rows }
           docstore :=
             (List.range documents.length).foldl
               (fun acc i =>
                 dictSet acc (s.index.vectors.length + i)
                   (.ourDoc (documents.getD i ⟨[], []⟩)))
               s.docstore
           index_to_docstore_id :=
             (List.range documents.length).foldl
               (fun acc i =>
                 dictSet acc (s.index.vectors.length + i) (s.index.vectors.length + i))
               s.index_to_docstore_id }⟩

/-- A sequence of `add_documents` batches; an exception aborts the
sequence, leaving the store in its last (unchanged-by-the-failed-call)
state. -/
def runOps (s : FAISSVectorStore) : List (List Document) → FAISSVectorStore
  | [] => s
  | docs :: rest =>
    if (add_documents s docs).error = none then runOps (add_documents s docs).store rest
    else (add_documents s docs).store

/-- Squared L2 distance as computed by `IndexFlatL2`. -/
def sqDist (q v : List ℚ) : ℚ :=
  ((q.zip v).map (fun p => (p.1 - p.2) ^ 2)).sum

/-- Distance reported by faiss for padding entries (`HUGE_VALF`). -/
def faissPadDistance : ℚ := 2 ^ 128

/-- Insert into a list sorted by ascending distance (ties by slot). -/
def insertByDist (x : Int × ℚ) : List (Int × ℚ) → List (Int × ℚ)
  | [] => [x]
  | y :: ys =>
    if x.2 < y.2 ∨ (x.2 = y.2 ∧ x.1 ≤ y.1) then x :: y :: ys else y :: insertByDist x ys

def sortByDist (l : List (Int × ℚ)) : List (Int × ℚ) := l.foldr insertByDist []

/-- `index.search(query, k)` on `IndexFlatL2`: exact search returning
exactly `k` `(label, distance)` rows, padded with label `-1` when the index
holds fewer than `k` vectors (faiss pads missing results with `-1`). -/
def faissSearch (idx : FaissIndex) (q : List ℚ) (k : Nat) : List (Int × ℚ) :=
  let scored := idx.vectors.enum.map (fun p => ((p.1 : Int), sqDist q p.2))
  let top := (sortByDist scored).take k
  top ++ List.replicate (k - top.length) ((-1 : Int), faissPadDistance)

/-- Python truthiness of a docstore value (`if doc:`): document objects and
class-stub instances are all truthy. -/
def pyTruthy (_ : PyDocValue) : Bool := true

/-- Loop body of `similarity_search_with_score`: skip labels that are
negative or not below `len(self.docstore)`, translate the label through
`index_to_docstore_id.get(idx, idx)`, then look the id up in the docstore,
skipping unresolved slots. -/
def resolveHit (s : FAISSVectorStore) (hit : Int × ℚ) : Option (PyDocValue × ℚ) :=
  if hit.1 < 0 ∨ (dictLen s.docstore : Int) ≤ hit.1 then none
  else
    let doc_id := (dictGet s.index_to_docstore_id hit.1.toNat).getD hit.1.toNat
    match dictGet s.docstore doc_id with
    | some doc => if pyTruthy doc then some (doc, hit.2) else none
    | none => none

/-- `FAISSVectorStore.similarity_search_with_score`. -/
def similarity_search_with_score (s : FAISSVectorStore) (query : List Char) (k : Nat) :
    List (PyDocValue × ℚ) :=
  (faissSearch s.index (s.embeddings.embed_query query) k).filterMap (resolveHit s)

/-- `FAISSVectorStore.similarity_search`: delegates to
`similarity_search_with_score` and keeps the documents. -/
def similarity_search (s : FAISSVectorStore) (query : List Char) (k : Nat) :
    List PyDocValue :=
  (similarity_search_with_score s query k).map (fun r => r.1)

/-! ### Persistence (`save_local` / `load_local`) -/

/-- The `index.pkl` side file: either this project's shape
(`{'docstore': ..., 'index_to_docstore_id': ...}`) or the legacy
LangChain tuple `(docstore_object, index_to_docstore_id)` whose docstore
maps opaque string keys to document records and whose mapping sends slot
ids to those keys. -/
inductive StoredMetadata where
  | ours (docstore : List (Nat × PyDocValue)) (mapping : List (Nat × Nat))
  | legacy (docdict : List (String × PyDocValue)) (mapping : List (Nat × String))

/-- An on-disk index directory with both required files present
(`index.faiss` and `index.pkl`). -/
structure DiskState where
  indexFile : FaissIndex
  metadataFile : StoredMetadata

/-- `FAISSVectorStore.save_local`. -/
def save_local (s : FAISSVectorStore) : DiskState :=
  { indexFile := s.index
    metadataFile := .ours s.docstore s.index_to_docstore_id }

/-- Normalisation of one docstore record (the conversion loop of
`load_local`): records exposing `page_content` — directly, through
`__dict__`, or through a nested pydantic `__dict__['__dict__']` — become
this project's `Document`; anything else is kept unchanged. -/
def convertValue : PyDocValue → PyDocValue
  | .ourDoc d => .ourDoc d
  | .lcDoc c m => .ourDoc { page_content := c, metadata := m }
  | .pyShell c m => .ourDoc { page_content := c, metadata := m }
  | .other => .other

/-- Legacy branch of `load_local`: compose `index_to_docstore_id` with the
docstore's key-to-record map, keeping only slot ids whose key is present. -/
def rebuildLegacyDocstore (mapping : List (Nat × String))
    (docdict : List (String × PyDocValue)) : List (Nat × PyDocValue) :=
  mapping.foldl
    (fun acc p =>
      match dictGet docdict p.2 with
      | some v => dictSet acc p.1 v
      | none => acc)
    []

/-- `FAISSVectorStore.load_local`.  With
`allow_dangerous_deserialization=False` (the default) it raises
`ValueError` before touching either file.  Otherwise it reads the index,
branches on the metadata shape, rebuilds a direct slot-keyed docstore,
normalises every record, and — for the legacy tuple shape — reassigns the
slot mapping to `{i: i for i in range(len(converted_docstore))}`. -/
def load_local (provider : EmbeddingProvider)
    (allow_dangerous_deserialization : Bool) (disk : DiskState) :
    Except VSError FAISSVectorStore :=
  if !allow_dangerous_deserialization then .error .valueError
  else
    match disk.metadataFile with
    | .ours ds mp =>
      .ok { embeddings := provider
            index := disk.indexFile
            docstore := ds.map (fun kv => (kv.1, convertValue kv.2))
            index_to_docstore_id := mp }
    | .legacy docdict mapping =>
      let docstore := rebuildLegacyDocstore mapping docdict
      let converted := docstore.map (fun kv => (kv.1, convertValue kv.2))
      .ok { embeddings := provider
            index := disk.indexFile
            docstore := converted
            index_to_docstore_id :=
              (List.range converted.length).map (fun i => (i, i)) }

/-- A concrete single-dimension constant embedding provider used as a test
fixture by the witnesses. -/
def constProvider1 : EmbeddingProvider :=
  ⟨fun ts => ts.map (fun _ => [(0 : ℚ)]), fun _ => [(0 : ℚ)]⟩

/-- The store that `from_documents [⟨['a'], []⟩] constProvider1` builds. -/
def store1 : FAISSVectorStore :=
  { embeddings := constProvider1
    index := { d := 1, vectors := [[(0 : ℚ)]] }
    docstore := [(0, .ourDoc ⟨['a'], []⟩)]
    index_to_docstore_id := [(0, 0)] }

/-- A 3-document legacy fixture: content-addressed records keyed by opaque
string keys, as a prior LangChain-era index stored them. -/
def legacyDocdict : List (String × PyDocValue) :=
  [("u1", .lcDoc ['d', 'o', 'c', '1'] [("source", "a.md")]),
   ("u2", .lcDoc ['d', 'o', 'c', '2'] [("source", "b.md")]),
   ("u3", .lcDoc ['d', 'o', 'c', '3'] [("source", "c.md")])]

/-- Slot-to-opaque-key mapping of the legacy fixture. -/
def legacyMapping : List (Nat × String) := [(0, "u1"), (1, "u2"), (2, "u3")]

/-- Index file of the legacy fixture. -/
def legacyIndex : FaissIndex := { d := 1, vectors := [[(1 : ℚ)], [(2 : ℚ)], [(3 : ℚ)]] }

/-- The batch interface promise of §6: `embed_documents` is order-preserving
with one output vector per input text.  (Claim C1 assumes the provider
meets it.) -/
def countCorrect (p : EmbeddingProvider) : Prop :=
  ∀ texts, (p.embed_documents texts).length = texts.length

/-! ## Helper lemmas -/

theorem find?_overwrite_self {κ α : Type} [DecidableEq κ]
    (d : List (κ × α)) (k : κ) (v : α) (hmem : d.any (fun kv => kv.1 = k) = true) :
    List.find? (fun kv => kv.1 = k) (d.map (fun kv => if kv.1 = k then (k, v) else kv))
      = some (k, v) := by
  induction d with
  | nil => simp at hmem
  | cons kv d ih =>
    by_cases hk : kv.1 = k
    · rw [List.map_cons, if_pos hk, List.find?_cons_of_pos _ (by simp)]
    · have hrest : d.any (fun kv => kv.1 = k) = true := by
        simp only [List.any_cons, decide_eq_true_eq, Bool.or_eq_true] at hmem
        rcases hmem with h | h
        · exact absurd h hk
        · exact h
      rw [List.map_cons, if_neg hk, List.find?_cons_of_neg _ (by simpa using hk)]
      exact ih hrest

theorem find?_overwrite_ne {κ α : Type} [DecidableEq κ]
    (d : List (κ × α)) (k k' : κ) (v : α) (hne : k' ≠ k) :
    List.find? (fun kv => kv.1 = k') (d.map (fun kv => if kv.1 = k then (k, v) else kv))
      = List.find? (fun kv => kv.1 = k') d := by
  induction d with
  | nil => rfl
  | cons kv d ih =>
    by_cases hk : kv.1 = k
    · have h1 : ¬ ((k, v) : κ × α).1 = k' := fun h => hne h.symm
      have h2 : ¬ kv.1 = k' := fun h => hne (h ▸ hk : k' = k)
      rw [List.map_cons, if_pos hk, List.find?_cons_of_neg _ (by simpa using h1),
        List.find?_cons_of_neg _ (by simpa using h2)]
      exact ih
    · by_cases hk' : kv.1 = k'
      · rw [List.map_cons, if_neg hk, List.find?_cons_of_pos _ (by simpa using hk'),
          List.find?_cons_of_pos _ (by simpa using hk')]
      · rw [List.map_cons, if_neg hk, List.find?_cons_of_neg _ (by simpa using hk'),
          List.find?_cons_of_neg _ (by simpa using hk')]
        exact ih

theorem dictGet_dictSet_self {κ α : Type} [DecidableEq κ]
    (d : List (κ × α)) (k : κ) (v : α) : dictGet (dictSet d k v) k = some v := by
  unfold dictSet dictGet
  by_cases hmem : d.any (fun kv => kv.1 = k) = true
  · rw [if_pos hmem, find?_overwrite_self d k v hmem]
    rfl
  · rw [if_neg hmem, List.find?_append]
    have h1 : List.find? (fun kv => kv.1 = k) d = none := by
      rw [List.find?_eq_none]
      intro kv hkv
      simp only [decide_eq_true_eq]
      intro hk
      exact hmem (List.any_eq_true.mpr ⟨kv, hkv, by simpa using hk⟩)
    rw [h1]
    simp

theorem dictGet_dictSet_ne {κ α : Type} [DecidableEq κ]
    (d : List (κ × α)) (k k' : κ) (v : α) (hne : k' ≠ k) :
    dictGet (dictSet d k v) k' = dictGet d k' := by
  unfold dictSet dictGet
  by_cases hmem : d.any (fun kv => kv.1 = k) = true
  · rw [if_pos hmem, find?_overwrite_ne d k k' v hne]
  · rw [if_neg hmem, List.find?_append]
    have h2 : List.find? (fun kv => kv.1 = k') [(k, v)] = none := by
      rw [List.find?_eq_none]
      intro kv hkv
      simp only [List.mem_singleton] at hkv
      subst hkv
      simpa using fun h => hne h.symm
    rw [h2, Option.or_none]

theorem dictSet_of_not_mem {κ α : Type} [DecidableEq κ]
    (d : List (κ × α)) (k : κ) (v : α) (h : k ∉ dictKeys d) :
    dictSet d k v = d ++ [(k, v)] := by
  unfold dictSet
  rw [if_neg]
  simp only [List.any_eq_true, decide_eq_true_eq, not_exists, not_and]
  intro kv hkv hk
  exact h (hk ▸ List.mem_map_of_mem Prod.fst hkv)

theorem dictKeys_append {κ α : Type} (d e : List (κ × α)) :
    dictKeys (d ++ e) = dictKeys d ++ dictKeys e := by
  simp [dictKeys]

theorem map_id_of_mem {α : Type} (f : α → α) (l : List α) (h : ∀ x ∈ l, f x = x) :
    l.map f = l := by
  induction l with
  | nil => rfl
  | cons x l ih =>
    simp only [List.map_cons, h x (List.mem_cons_self x l)]
    rw [ih (fun y hy => h y (List.mem_cons_of_mem x hy))]

theorem filterMap_replicate_none {α β : Type} (f : α → Option β) (x : α)
    (hx : f x = none) : ∀ n, (List.replicate n x).filterMap f = [] := by
  intro n
  induction n with
  | zero => rfl
  | succ n ih => simp [List.replicate_succ, List.filterMap_cons, hx, ih]

theorem pySplitAux_no_occurrence (sep : List Char) :
    ∀ (fuel : Nat) (acc rest : List Char), ¬ (sep <:+: rest) →
      pySplitAux sep fuel acc rest = [acc.reverse ++ rest] := by
  intro fuel
  induction fuel with
  | zero => intro acc rest _; rfl
  | succ fuel ih =>
    intro acc rest hinf
    have hpre : ¬ sep.isPrefixOf rest := by
      rw [List.isPrefixOf_iff_prefix]
      exact fun h => hinf h.isInfix
    cases rest with
    | nil =>
      unfold pySplitAux
      rw [if_neg hpre]
      simp
    | cons c cs =>
      have hcs : ¬ (sep <:+: cs) := fun h =>
        hinf (h.trans (List.suffix_cons c cs).isInfix)
      unfold pySplitAux
      rw [if_neg hpre]
      show pySplitAux sep fuel (c :: acc) cs = [acc.reverse ++ (c :: cs)]
      rw [ih (c :: acc) cs hcs]
      simp

theorem pySplit_no_occurrence (sep text : List Char)
    (hinf : ¬ (sep <:+: text)) : pySplit sep text = [text] := by
  unfold pySplit
  rw [pySplitAux_no_occurrence sep _ [] text hinf]
  rfl

theorem add_documents_embeddings (s : FAISSVectorStore) (documents : List Document) :
    (add_documents s documents).store.embeddings = s.embeddings := by
  unfold add_documents
  split
  · rfl
  · split
    · rfl
    · split
      · rfl
      · rfl

/-! ## Claim theorems -/

/-- Claim C9: `load_local` called with `allow_dangerous_deserialization`
left `False` (its default) raises `ValueError` regardless of what is on
disk, before reading any file; hence only calls passing `True` can
succeed. -/
theorem load_local_requires_allow_flag (provider : EmbeddingProvider)
    (disk : DiskState) : load_local provider false disk = .error .valueError := rfl

/-- Claim C10: `similarity_search` returns exactly the document components
of `similarity_search_with_score`, in the same order and with the same
length. -/
theorem similarity_search_agrees (s : FAISSVectorStore) (query : List Char) (k : Nat) :
    similarity_search s query k
      = (similarity_search_with_score s query k).map Prod.fst ∧
    (similarity_search s query k).length
      = (similarity_search_with_score s query k).length := by
  constructor
  · rfl
  · simp [similarity_search]

/-- Claim C7: searching a store whose index holds zero vectors returns the
empty result list for every query and every `k` (faiss pads all `k` result
rows with label `-1`, and the resolution loop skips negative labels), not
a crash. -/
theorem search_empty_index (s : FAISSVectorStore)
    (hempty : s.index.vectors = []) (query : List Char) (k : Nat) :
    similarity_search_with_score s query k = [] := by
  unfold similarity_search_with_score faissSearch
  rw [hempty]
  have hres : resolveHit s ((-1 : Int), faissPadDistance) = none := by
    unfold resolveHit
    rw [if_pos]
    left
    decide
  simpa [sortByDist] using
    filterMap_replicate_none (resolveHit s) ((-1 : Int), faissPadDistance) hres k

/-- Claim C7 witness at a concrete empty store. -/
theorem search_empty_index_witness :
    (let s : FAISSVectorStore :=
      { embeddings := ⟨fun _ => [], fun _ => [(0 : ℚ)]⟩
        index := { d := 1, vectors := [] }
        docstore := []
        index_to_docstore_id := [] };
     s.index.vectors = [] ∧ similarity_search_with_score s ['h', 'i'] 4 = []) :=
  ⟨rfl, search_empty_index _ rfl ['h', 'i'] 4⟩

/-- Claim C5: when the provider returns a (rectangular, nonempty) batch
whose dimension differs from the index's established dimension,
`add_documents` fails with the dimension-mismatch error and the store is
exactly as before the call: same `size()`, no docstore entry inserted. -/
theorem add_documents_dimension_mismatch (s : FAISSVectorStore)
    (documents : List Document) (d2 : Nat) (rows : List (List ℚ))
    (hne : documents ≠ [])
    (hemb : np2d (s.embeddings.embed_documents
        (documents.map (fun d => d.page_content))) = some (d2, rows))
    (hd : d2 ≠ s.index.d) :
    (add_documents s documents).error = some .dimensionMismatch ∧
    (add_documents s documents).store = s := by
  have key : add_documents s documents = ⟨some .dimensionMismatch, s⟩ := by
    unfold add_documents
    rw [if_neg hne, hemb]
    exact if_pos hd
  rw [key]
  exact ⟨rfl, rfl⟩

/-- Claim C5 witness: a one-dimensional index fed two-dimensional vectors. -/
theorem add_documents_dimension_mismatch_witness :
    (let p : EmbeddingProvider :=
      ⟨fun ts => ts.map (fun _ => [(0 : ℚ), 1]), fun _ => [(0 : ℚ)]⟩;
     let s : FAISSVectorStore :=
      { embeddings := p
        index := { d := 1, vectors := [[(5 : ℚ)]] }
        docstore := [(0, .ourDoc ⟨['x'], []⟩)]
        index_to_docstore_id := [(0, 0)] };
     let documents : List Document := [⟨['y'], []⟩];
     (add_documents s documents).error = some .dimensionMismatch ∧
     (add_documents s documents).store = s) :=
  add_documents_dimension_mismatch _ _ 2 [[(0 : ℚ), 1]] (by decide) rfl (by decide)

/-- Claim C6 (corrected, counterexample): `from_documents` does not fail
when the provider returns a row count different from the chunk count — for
two documents and a provider returning a single vector it succeeds and
builds a store whose Vector Index holds 1 vector while the Document Store
holds 2 entries. -/
theorem from_documents_row_count_counterexample :
    ∃ s, from_documents [⟨['a'], []⟩, ⟨['b'], []⟩]
        ⟨fun _ => [[(1 : ℚ)]], fun _ => [(1 : ℚ)]⟩ = .ok s ∧
      s.index.vectors.length = 1 ∧ dictLen s.docstore = 2 :=
  ⟨_, rfl, rfl, rfl⟩

/-- Claim C6 (amended): `from_documents` performs no row-count validation.
Whenever the provider's batch call returns a nonempty rectangular batch of
`rows` — however many — the construction succeeds, the Vector Index holds
exactly `rows.length` vectors and the Document Store holds exactly
`documents.length` entries (so the two sizes differ whenever the returned
row count differs from the chunk count). -/
theorem from_documents_row_count_unchecked (documents : List Document)
    (provider : EmbeddingProvider) (dimension : Nat) (rows : List (List ℚ))
    (hemb : np2d (provider.embed_documents
        (documents.map (fun d => d.page_content))) = some (dimension, rows)) :
    ∃ s, from_documents documents provider = .ok s ∧
      s.index.vectors.length = rows.length ∧
      dictLen s.docstore = documents.length := by
  have key : from_documents documents provider = .ok
      { embeddings := provider
        index := { d := dimension, vectors := rows }
        docstore :=
          (List.range documents.length).map
            (fun i => (i, .ourDoc (documents.getD i ⟨[], []⟩)))
        index_to_docstore_id := (List.range documents.length).map (fun i => (i, i)) } := by
    unfold from_documents
    rw [hemb]
  exact ⟨_, key, rfl, by simp [dictLen]⟩

theorem joinChunks_singleton (t : TextSplitter) (x : List Char) :
    joinChunks t [x] = x := by
  unfold joinChunks
  split
  · simp [List.intercalate]
  · simp

theorem splitTextRec_cons (cs fuel : Nat) (sep : List Char)
    (rest : List (List Char)) (text : List Char) (hsep : sep ≠ []) :
    splitTextRec cs (fuel + 1) (sep :: rest) text
      = (pySplit sep text).flatMap
          (fun s => if s.length ≤ cs then [s] else splitTextRec cs fuel rest s) := by
  simp only [splitTextRec]
  rw [if_neg hsep]

theorem mergeSplits_single (t : TextSplitter) (text : List Char)
    (hws : hasNonSpace text = true) : mergeSplits t [text] = [text] := by
  unfold mergeSplits mergeSplitsAux
  rw [if_neg (by simp)]
  unfold mergeSplitsAux
  rw [if_pos (by simp)]
  simp only [List.nil_append, joinChunks_singleton]
  simp [hws]

/-- Claim C2 (corrected, counterexample): with the default configuration,
the 4-character document `"a\n\nb"` (length ≤ `chunk_size = 1000`) is
split into exactly one chunk, but its content is `"a b"`, not the original
text: splitting on the `"\n\n"` separator drops the separator and the merge
pass rejoins the pieces with `" "`. -/
theorem split_documents_roundtrip_counterexample :
    splitDocuments defaultSplitter [⟨['a', '\n', '\n', 'b'], []⟩]
        = [⟨['a', ' ', 'b'], []⟩] ∧
      (['a', ' ', 'b'] : List Char) ≠ ['a', '\n', '\n', 'b'] ∧
      (['a', '\n', '\n', 'b'] : List Char).length ≤ defaultSplitter.chunk_size := by
  decide

/-- Claim C2 (amended): for a document whose text has length at most
`chunk_size`, contains no occurrence of the coarsest separator `"\n\n"`
(with the default separator list) and has at least one non-whitespace
character, `split_documents` yields exactly one chunk whose content equals
the original document text character for character. -/
theorem split_documents_single_chunk (cs co : Nat) (doc : Document)
    (hlen : doc.page_content.length ≤ cs)
    (hsep : ¬ ((['\n', '\n'] : List Char) <:+: doc.page_content))
    (hws : hasNonSpace doc.page_content = true) :
    splitDocuments ⟨cs, co, defaultSeparators⟩ [doc] = [doc] := by
  have hsplit : pySplit ['\n', '\n'] doc.page_content = [doc.page_content] :=
    pySplit_no_occurrence _ _ hsep
  have h1 : splitText ⟨cs, co, defaultSeparators⟩ doc.page_content = [doc.page_content] := by
    unfold splitText
    show mergeSplits ⟨cs, co, defaultSeparators⟩
      (splitTextRec cs (4 + 1) (['\n', '\n'] :: [['\n'], [' '], []]) doc.page_content) = _
    rw [splitTextRec_cons cs 4 _ _ _ (by decide), hsplit]
    rw [List.flatMap_cons, List.flatMap_nil, List.append_nil, if_pos hlen]
    exact mergeSplits_single _ _ hws
  unfold splitDocuments
  rw [List.flatMap_cons, List.flatMap_nil, List.append_nil, h1]
  simp

/-- Claim C2 amended-theorem witness. -/
theorem split_documents_single_chunk_witness :
    ((['h', 'i', ' ', 'y', 'o', 'u'] : List Char).length ≤ 1000 ∧
      ¬ ((['\n', '\n'] : List Char) <:+: ['h', 'i', ' ', 'y', 'o', 'u']) ∧
      hasNonSpace ['h', 'i', ' ', 'y', 'o', 'u'] = true) ∧
    splitDocuments ⟨1000, 200, defaultSeparators⟩
        [⟨['h', 'i', ' ', 'y', 'o', 'u'], [("source", "f.md")]⟩]
      = [⟨['h', 'i', ' ', 'y', 'o', 'u'], [("source", "f.md")]⟩] :=
  ⟨⟨by decide, by decide, by decide⟩,
    split_documents_single_chunk 1000 200 _ (by decide) (by decide) (by decide)⟩

theorem np2d_some_eq (rows0 : List (List ℚ)) (dim : Nat) (rows : List (List ℚ))
    (h : np2d rows0 = some (dim, rows)) : rows = rows0 := by
  cases rows0 with
  | nil => simp [np2d] at h
  | cons v vs =>
    simp only [np2d] at h
    split at h
    · cases h
      rfl
    · cases h

theorem dictKeys_pair_range {α : Type} (f : Nat → α) (n : Nat) :
    dictKeys ((List.range n).map (fun i => (i, f i))) = List.range n := by
  unfold dictKeys
  rw [List.map_map]
  show List.map (fun i : Nat => i) (List.range n) = List.range n
  simp

theorem dictKeys_foldl_dictSet_range {α : Type} (v : Nat → α) :
    ∀ (m : Nat) (d : List (Nat × α)) (n : Nat), dictKeys d = List.range n →
      dictKeys ((List.range m).foldl (fun acc i => dictSet acc (n + i) (v i)) d)
        = List.range (n + m) := by
  intro m
  induction m with
  | zero => intro d n h; simpa using h
  | succ m ih =>
    intro d n h
    rw [List.range_succ, List.foldl_append, List.foldl_cons, List.foldl_nil]
    have hkeys := ih d n h
    have hnotmem :
        (n + m) ∉ dictKeys ((List.range m).foldl (fun acc i => dictSet acc (n + i) (v i)) d) := by
      rw [hkeys]
      simp
    rw [dictSet_of_not_mem _ _ _ hnotmem, dictKeys_append, hkeys]
    show List.range (n + m) ++ dictKeys [(n + m, v m)] = List.range (n + (m + 1))
    rw [show n + (m + 1) = (n + m) + 1 by omega, List.range_succ]
    rfl

/-- From `dictKeys d = range n`: the dictionary has exactly `n` entries and
every slot below `n` resolves. -/
theorem dictKeys_range_props {α : Type} (d : List (Nat × α)) (n : Nat)
    (h : dictKeys d = List.range n) :
    dictLen d = n ∧
    (List.range n).all (fun slot => (dictGet d slot).isSome) = true := by
  constructor
  · have hl := congrArg List.length h
    simpa [dictKeys, dictLen] using hl
  · rw [List.all_eq_true]
    intro slot hslot
    have hmem : slot ∈ dictKeys d := by rw [h]; exact hslot
    obtain ⟨kv, hkv, hfst⟩ := List.mem_map.mp hmem
    have hfind : (d.find? (fun kv => kv.1 = slot)).isSome :=
      List.find?_isSome.mpr ⟨kv, hkv, by simp [hfst]⟩
    obtain ⟨x, hx⟩ := Option.isSome_iff_exists.mp hfind
    unfold dictGet
    rw [hx]
    rfl

/-- Successful `from_documents` builds the store with the provider, the
embedded rows as the index contents and docstore keys `0..len-1`. -/
theorem from_documents_ok_spec (documents : List Document)
    (provider : EmbeddingProvider) (s : FAISSVectorStore)
    (hok : from_documents documents provider = .ok s) :
    s.embeddings = provider ∧
    s.index.vectors = provider.embed_documents (documents.map (fun d => d.page_content)) ∧
    dictKeys s.docstore = List.range documents.length := by
  unfold from_documents at hok
  split at hok
  · cases hok
  · rename_i dim rows hnp
    cases hok
    refine ⟨rfl, ?_, ?_⟩
    · exact np2d_some_eq _ _ _ hnp
    · exact dictKeys_pair_range _ _

/-- `add_documents` preserves the docstore-keys-are-exactly-the-slots
invariant (given a provider meeting the batch interface). -/
theorem add_documents_preserves_keys (s : FAISSVectorStore) (documents : List Document)
    (hp : countCorrect s.embeddings)
    (hkeys : dictKeys s.docstore = List.range s.index.vectors.length) :
    dictKeys (add_documents s documents).store.docstore
      = List.range (add_documents s documents).store.index.vectors.length := by
  unfold add_documents
  split
  · exact hkeys
  · split
    · exact hkeys
    · split
      · exact hkeys
      · rename_i hnp hd2
        have hrows := np2d_some_eq _ _ _ hnp
        rename_i d2 rows
        show dictKeys
            ((List.range documents.length).foldl
              (fun acc i =>
                dictSet acc (s.index.vectors.length + i)
                  (.ourDoc (documents.getD i ⟨[], []⟩)))
              s.docstore)
          = List.range (s.index.vectors ++ rows).length
        have hlen : rows.length = documents.length := by
          rw [hrows, hp]
          simp
        rw [List.length_append, hlen]
        exact dictKeys_foldl_dictSet_range _ documents.length s.docstore _ hkeys

theorem runOps_preserves_keys (batches : List (List Document)) :
    ∀ s : FAISSVectorStore, countCorrect s.embeddings →
      dictKeys s.docstore = List.range s.index.vectors.length →
      dictKeys (runOps s batches).docstore
        = List.range (runOps s batches).index.vectors.length := by
  induction batches with
  | nil => intro s _ hkeys; exact hkeys
  | cons docs rest ih =>
    intro s hp hkeys
    unfold runOps
    split
    · refine ih _ ?_ (add_documents_preserves_keys s docs hp hkeys)
      rw [add_documents_embeddings]
      exact hp
    · exact add_documents_preserves_keys s docs hp hkeys

/-- Claim C1: starting from any successful `from_documents` build with a
provider that returns one vector per chunk, and applying any sequence of
`add_documents` batches, the Document Store holds exactly one entry per
slot `0 ≤ s < size()` and no others: its keys are exactly
`0..size()-1`, `len(docstore) = size()`, and `docstore.get(s)`
resolves for every slot in range. -/
theorem document_store_alignment (documents : List Document)
    (provider : EmbeddingProvider) (batches : List (List Document))
    (s0 : FAISSVectorStore)
    (hp : countCorrect provider)
    (h0 : from_documents documents provider = .ok s0) :
    dictKeys (runOps s0 batches).docstore
      = List.range (runOps s0 batches).index.vectors.length ∧
    dictLen (runOps s0 batches).docstore
      = (runOps s0 batches).index.vectors.length ∧
    (List.range (runOps s0 batches).index.vectors.length).all
      (fun slot => (dictGet (runOps s0 batches).docstore slot).isSome) = true := by
  obtain ⟨hemb, hvec, hkeys0⟩ := from_documents_ok_spec documents provider s0 h0
  have hp0 : countCorrect s0.embeddings := hemb ▸ hp
  have hlen0 : s0.index.vectors.length = documents.length := by
    rw [hvec, hp]
    simp
  have hkeys : dictKeys (runOps s0 batches).docstore
      = List.range (runOps s0 batches).index.vectors.length :=
    runOps_preserves_keys batches s0 hp0 (by rw [hkeys0, hlen0])
  obtain ⟨h1, h2⟩ := dictKeys_range_props _ _ hkeys
  exact ⟨hkeys, h1, h2⟩

/-- Claim C1 witness: a one-document build followed by a one-document
incremental add, with a constant single-vector-per-text provider. -/
theorem document_store_alignment_witness :
    countCorrect constProvider1 ∧
    from_documents [⟨['a'], []⟩] constProvider1 = .ok store1 ∧
    (dictKeys (runOps store1 [[⟨['b'], []⟩]]).docstore
       = List.range (runOps store1 [[⟨['b'], []⟩]]).index.vectors.length ∧
     dictLen (runOps store1 [[⟨['b'], []⟩]]).docstore
       = (runOps store1 [[⟨['b'], []⟩]]).index.vectors.length ∧
     (List.range (runOps store1 [[⟨['b'], []⟩]]).index.vectors.length).all
       (fun slot => (dictGet (runOps store1 [[⟨['b'], []⟩]]).docstore slot).isSome) = true) :=
  ⟨fun ts => by simp [constProvider1], rfl,
    document_store_alignment [⟨['a'], []⟩] constProvider1 [[⟨['b'], []⟩]] store1
      (fun ts => by simp [constProvider1]) rfl⟩

theorem foldl_dictSet_get_lt {α : Type} (v : Nat → α) (d : List (Nat × α)) (n : Nat) :
    ∀ (m k : Nat), k < n →
      dictGet ((List.range m).foldl (fun acc i => dictSet acc (n + i) (v i)) d) k
        = dictGet d k := by
  intro m
  induction m with
  | zero => intro k _; rfl
  | succ m ih =>
    intro k hk
    rw [List.range_succ, List.foldl_append, List.foldl_cons, List.foldl_nil,
      dictGet_dictSet_ne _ _ _ _ (by omega)]
    exact ih k hk

theorem foldl_dictSet_get_hit {α : Type} (v : Nat → α) (d : List (Nat × α)) (n : Nat) :
    ∀ (m i : Nat), i < m →
      dictGet ((List.range m).foldl (fun acc i => dictSet acc (n + i) (v i)) d) (n + i)
        = some (v i) := by
  intro m
  induction m with
  | zero => intro i hi; omega
  | succ m ih =>
    intro i hi
    rw [List.range_succ, List.foldl_append, List.foldl_cons, List.foldl_nil]
    by_cases him : i = m
    · subst him
      exact dictGet_dictSet_self _ _ _
    · rw [dictGet_dictSet_ne _ _ _ _ (by omega)]
      exact ih i (by omega)

theorem mem_dictSet {κ α : Type} [DecidableEq κ] (d : List (κ × α)) (k : κ) (v : α) :
    ∀ kv ∈ dictSet d k v, kv ∈ d ∨ kv = (k, v) := by
  intro kv hkv
  unfold dictSet at hkv
  split at hkv
  · obtain ⟨kv0, hkv0, heq⟩ := List.mem_map.mp hkv
    by_cases h0 : kv0.1 = k
    · right
      rw [if_pos h0] at heq
      exact heq.symm
    · left
      rw [if_neg h0] at heq
      exact heq ▸ hkv0
  · rcases List.mem_append.mp hkv with h | h
    · exact Or.inl h
    · right
      simpa using h

theorem foldl_dictSet_values {α : Type} (f : Nat → α) (P : α → Prop)
    (hP : ∀ i, P (f i)) (d : List (Nat × α)) (hd : ∀ kv ∈ d, P kv.2) (n : Nat) :
    ∀ m, ∀ kv ∈ (List.range m).foldl (fun acc i => dictSet acc (n + i) (f i)) d,
      P kv.2 := by
  intro m
  induction m with
  | zero => exact hd
  | succ m ih =>
    intro kv hkv
    rw [List.range_succ, List.foldl_append, List.foldl_cons, List.foldl_nil] at hkv
    rcases mem_dictSet _ _ _ kv hkv with h | h
    · exact ih kv h
    · rw [h]
      exact hP m

/-- `load_local(save_local(s))` (with allow flag) restores the index, the
docstore and the slot mapping verbatim, provided every stored value is a
fixed point of record normalisation (true of every value the operations
store). -/
theorem load_after_save (s : FAISSVectorStore) (p : EmbeddingProvider)
    (hfix : ∀ kv ∈ s.docstore, convertValue kv.2 = kv.2) :
    load_local p true (save_local s)
      = .ok { embeddings := p
              index := s.index
              docstore := s.docstore
              index_to_docstore_id := s.index_to_docstore_id } := by
  unfold load_local save_local
  rw [if_neg (by simp)]
  show (Except.ok
      { embeddings := p
        index := s.index
        docstore := s.docstore.map (fun kv => (kv.1, convertValue kv.2))
        index_to_docstore_id := s.index_to_docstore_id } :
      Except VSError FAISSVectorStore) = _
  rw [map_id_of_mem _ _ (fun kv hkv => by rw [hfix kv hkv])]

/-- Claim C3: a successful `add_documents` on a nonempty chunk list keyed
the new chunks at slots `size(), size()+1, ...` in chunk order, appended
their vectors after the existing ones, left every pre-existing slot's
docstore entry and vector unchanged, and a `save_local` + `load_local`
round trip afterwards reproduces the docstore, slot mapping and index —
old slots still hold the old chunks and the new slots the new chunks. -/
theorem add_documents_frame (s : FAISSVectorStore) (documents : List Document)
    (rows : List (List ℚ))
    (hne : documents ≠ [])
    (hemb : np2d (s.embeddings.embed_documents (documents.map (fun d => d.page_content)))
      = some (s.index.d, rows))
    (hfix : ∀ kv ∈ s.docstore, convertValue kv.2 = kv.2) :
    (add_documents s documents).error = none ∧
    (add_documents s documents).store.index.vectors = s.index.vectors ++ rows ∧
    ((List.range documents.length).all (fun i =>
        decide (dictGet (add_documents s documents).store.docstore
            (s.index.vectors.length + i)
          = some (.ourDoc (documents.getD i ⟨[], []⟩))))) = true ∧
    ((List.range s.index.vectors.length).all (fun k =>
        decide (dictGet (add_documents s documents).store.docstore k
          = dictGet s.docstore k))) = true ∧
    load_local s.embeddings true (save_local (add_documents s documents).store)
      = .ok { embeddings := s.embeddings
              index := (add_documents s documents).store.index
              docstore := (add_documents s documents).store.docstore
              index_to_docstore_id :=
                (add_documents s documents).store.index_to_docstore_id } := by
  have key : add_documents s documents =
      ⟨none,
       { embeddings := s.embeddings
         index := { d := s.index.d, vectors := s.index.vectors ++ rows }
         docstore :=
           (List.range documents.length).foldl
             (fun acc i =>
               dictSet acc (s.index.vectors.length + i)
                 (.ourDoc (documents.getD i ⟨[], []⟩)))
             s.docstore
         index_to_docstore_id :=
           (List.range documents.length).foldl
             (fun acc i =>
               dictSet acc (s.index.vectors.length + i) (s.index.vectors.length + i))
             s.index_to_docstore_id }⟩ := by
    unfold add_documents
    rw [if_neg hne, hemb]
    exact if_neg (by simp)
  rw [key]
  refine ⟨rfl, rfl, ?_, ?_, ?_⟩
  · rw [List.all_eq_true]
    intro i hi
    rw [decide_eq_true_eq]
    exact foldl_dictSet_get_hit _ s.docstore _ _ i (List.mem_range.mp hi)
  · rw [List.all_eq_true]
    intro k hk
    rw [decide_eq_true_eq]
    exact foldl_dictSet_get_lt _ s.docstore _ _ k (List.mem_range.mp hk)
  · exact load_after_save _ s.embeddings
      (foldl_dictSet_values _ (fun x => convertValue x = x) (fun i => rfl)
        s.docstore hfix _ documents.length)

/-- Claim C3 witness: incrementally adding one chunk to the concrete
one-chunk fixture store. -/
theorem add_documents_frame_witness :
    (([⟨['b'], []⟩] : List Document) ≠ [] ∧
      np2d (store1.embeddings.embed_documents
          (([⟨['b'], []⟩] : List Document).map (fun d => d.page_content)))
        = some (store1.index.d, [[(0 : ℚ)]]) ∧
      ∀ kv ∈ store1.docstore, convertValue kv.2 = kv.2) ∧
    ((add_documents store1 [⟨['b'], []⟩]).error = none ∧
     (add_documents store1 [⟨['b'], []⟩]).store.index.vectors
       = store1.index.vectors ++ [[(0 : ℚ)]] ∧
     ((List.range ([⟨['b'], []⟩] : List Document).length).all (fun i =>
         decide (dictGet (add_documents store1 [⟨['b'], []⟩]).store.docstore
             (store1.index.vectors.length + i)
           = some (.ourDoc (([⟨['b'], []⟩] : List Document).getD i ⟨[], []⟩))))) = true ∧
     ((List.range store1.index.vectors.length).all (fun k =>
         decide (dictGet (add_documents store1 [⟨['b'], []⟩]).store.docstore k
           = dictGet store1.docstore k))) = true ∧
     load_local store1.embeddings true (save_local (add_documents store1 [⟨['b'], []⟩]).store)
       = .ok { embeddings := store1.embeddings
               index := (add_documents store1 [⟨['b'], []⟩]).store.index
               docstore := (add_documents store1 [⟨['b'], []⟩]).store.docstore
               index_to_docstore_id :=
                 (add_documents store1 [⟨['b'], []⟩]).store.index_to_docstore_id }) :=
  ⟨⟨by decide, rfl, by decide⟩,
    add_documents_frame store1 [⟨['b'], []⟩] [[(0 : ℚ)]] (by decide) rfl (by decide)⟩

theorem rebuildLegacy_spec (docdict : List (String × PyDocValue)) :
    ∀ (mapping : List (Nat × String)) (acc : List (Nat × PyDocValue)),
      (mapping.map Prod.fst).Nodup →
      (∀ su ∈ mapping, (dictGet docdict su.2).isSome) →
      (∀ su ∈ mapping, su.1 ∉ dictKeys acc) →
      mapping.foldl
        (fun acc p =>
          match dictGet docdict p.2 with
          | some v => dictSet acc p.1 v
          | none => acc) acc
      = acc ++ mapping.map (fun su => (su.1, (dictGet docdict su.2).getD .other)) := by
  intro mapping
  induction mapping with
  | nil => intro acc _ _ _; simp
  | cons su rest ih =>
    intro acc hnodup hsome hfresh
    obtain ⟨v, hv⟩ := Option.isSome_iff_exists.mp (hsome su (List.mem_cons_self su rest))
    have hhead : su.1 ∉ rest.map Prod.fst := by
      rw [List.map_cons, List.nodup_cons] at hnodup
      exact hnodup.1
    have htail : (rest.map Prod.fst).Nodup := by
      rw [List.map_cons, List.nodup_cons] at hnodup
      exact hnodup.2
    simp only [List.foldl_cons]
    rw [hv]
    show rest.foldl
        (fun acc p =>
          match dictGet docdict p.2 with
          | some v => dictSet acc p.1 v
          | none => acc) (dictSet acc su.1 v) = _
    rw [dictSet_of_not_mem _ _ _ (hfresh su (List.mem_cons_self su rest))]
    rw [ih (acc ++ [(su.1, v)]) htail
      (fun su' hsu' => hsome su' (List.mem_cons_of_mem su hsu'))
      (fun su' hsu' => by
        rw [dictKeys_append, List.mem_append]
        rintro (h | h)
        · exact hfresh su' (List.mem_cons_of_mem su hsu') h
        · have : su'.1 = su.1 := by simpa [dictKeys] using h
          exact hhead (this ▸ List.mem_map_of_mem Prod.fst hsu'))]
    rw [List.map_cons, hv]
    simp

/-- Claim C4: on the legacy indirect metadata shape — a docstore object
mapping opaque keys to document records plus a slot-to-key mapping with
distinct slots, every key present — `load_local` rebuilds a direct
slot-to-chunk Document Store by composing the two mappings (in mapping
order), normalises each record through `convertValue` into the current
`Document` representation, and reassigns the slot mapping to the
sequential ids `0..N-1`. -/
theorem load_local_legacy (provider : EmbeddingProvider) (idxFile : FaissIndex)
    (docdict : List (String × PyDocValue)) (mapping : List (Nat × String))
    (hnodup : (mapping.map Prod.fst).Nodup)
    (hsome : ∀ su ∈ mapping, (dictGet docdict su.2).isSome) :
    load_local provider true ⟨idxFile, .legacy docdict mapping⟩
      = .ok { embeddings := provider
              index := idxFile
              docstore := mapping.map (fun su =>
                (su.1, convertValue ((dictGet docdict su.2).getD .other)))
              index_to_docstore_id :=
                (List.range mapping.length).map (fun i => (i, i)) } := by
  have hre : rebuildLegacyDocstore mapping docdict
      = mapping.map (fun su => (su.1, (dictGet docdict su.2).getD .other)) := by
    unfold rebuildLegacyDocstore
    simpa using rebuildLegacy_spec docdict mapping [] hnodup hsome (by simp [dictKeys])
  unfold load_local
  rw [if_neg (by simp)]
  show (Except.ok
      { embeddings := provider
        index := idxFile
        docstore :=
          (rebuildLegacyDocstore mapping docdict).map (fun kv => (kv.1, convertValue kv.2))
        index_to_docstore_id :=
          (List.range ((rebuildLegacyDocstore mapping docdict).map
            (fun kv => (kv.1, convertValue kv.2))).length).map (fun i => (i, i)) } :
      Except VSError FAISSVectorStore) = _
  rw [hre, List.map_map, List.length_map]
  rfl

/-- Claim C4 witness: the 3-document legacy fixture loads into a Document
Store of size 3 whose slots 0, 1, 2 hold the correctly recovered chunks. -/
theorem load_local_legacy_witness :
    ((legacyMapping.map Prod.fst).Nodup ∧
      ∀ su ∈ legacyMapping, (dictGet legacyDocdict su.2).isSome) ∧
    load_local constProvider1 true ⟨legacyIndex, .legacy legacyDocdict legacyMapping⟩
      = .ok { embeddings := constProvider1
              index := legacyIndex
              docstore := legacyMapping.map (fun su =>
                (su.1, convertValue ((dictGet legacyDocdict su.2).getD .other)))
              index_to_docstore_id :=
                (List.range legacyMapping.length).map (fun i => (i, i)) } ∧
    (legacyMapping.map (fun su =>
        (su.1, convertValue ((dictGet legacyDocdict su.2).getD .other)))
      = [(0, .ourDoc ⟨['d', 'o', 'c', '1'], [("source", "a.md")]⟩),
         (1, .ourDoc ⟨['d', 'o', 'c', '2'], [("source", "b.md")]⟩),
         (2, .ourDoc ⟨['d', 'o', 'c', '3'], [("source", "c.md")]⟩)]) ∧
    dictLen (legacyMapping.map (fun su =>
        (su.1, convertValue ((dictGet legacyDocdict su.2).getD .other)))) = 3 :=
  ⟨⟨by decide, by decide⟩,
    load_local_legacy constProvider1 legacyIndex legacyDocdict legacyMapping
      (by decide) (by decide),
    by decide, by decide⟩

theorem intercalate_cons_cons (s a b : List Char) (l : List (List Char)) :
    List.intercalate s (a :: b :: l) = a ++ s ++ List.intercalate s (b :: l) := by
  simp [List.intercalate, List.intersperse]

theorem intercalate_snoc (s y : List Char) :
    ∀ (x : List Char) (xs : List (List Char)),
      List.intercalate s ((x :: xs) ++ [y]) = List.intercalate s (x :: xs) ++ s ++ y := by
  intro x xs
  induction xs generalizing x with
  | nil => simp [intercalate_cons_cons, List.intercalate]
  | cons x' xs ih =>
    have ih' := ih x'
    rw [List.cons_append] at ih'
    rw [List.cons_append, List.cons_append, intercalate_cons_cons, ih',
      intercalate_cons_cons s x x' xs]
    simp [List.append_assoc]

theorem joinChunks_prefix_snoc (t : TextSplitter) (xs : List (List Char)) (y : List Char) :
    joinChunks t xs <+: joinChunks t (xs ++ [y]) := by
  unfold joinChunks
  split
  · cases xs with
    | nil => simp [List.intercalate]
    | cons x xs' =>
      rw [intercalate_snoc]
      exact ⟨[' '] ++ y, by simp [List.append_assoc]⟩
  · rw [List.flatten_append]
    exact ⟨[y].flatten, rfl⟩

theorem prefix_joinChunks_pair (t : TextSplitter) (a b : List Char) :
    a <+: joinChunks t [a, b] := by
  unfold joinChunks
  split
  · rw [intercalate_cons_cons]
    exact ⟨[' '] ++ List.intercalate [' '] [b], by simp [List.append_assoc]⟩
  · exact ⟨[b].flatten, rfl⟩

/-- Adjacent chunks of the merge pass: each emitted chunk after the first
begins with the previous chunk's overlap seed, as long as every piece fed
to the merge pass is nonempty. -/
theorem mergeSplitsAux_chain (t : TextSplitter) :
    ∀ (splits currentChunk : List (List Char)) (currentLength : Nat),
      (∀ s_ ∈ splits, s_ ≠ []) →
      List.Chain' (fun a b => overlapKeep t a <+: b)
          (mergeSplitsAux t splits currentChunk currentLength) ∧
      (∀ x, (mergeSplitsAux t splits currentChunk currentLength).head? = some x →
        joinChunks t currentChunk <+: x) := by
  intro splits
  induction splits with
  | nil =>
    intro current len _
    unfold mergeSplitsAux
    by_cases hcur : current ≠ []
    · rw [if_pos hcur]
      refine ⟨List.chain'_singleton _, ?_⟩
      intro x hx
      cases hx
      exact List.prefix_refl _
    · rw [if_neg hcur]
      exact ⟨List.chain'_nil, fun x hx => by cases hx⟩
  | cons split rest ih =>
    intro current len hne
    have hsplit : split ≠ [] := hne split (List.mem_cons_self split rest)
    have hrest : ∀ s_ ∈ rest, s_ ≠ [] := fun s_ hs => hne s_ (List.mem_cons_of_mem _ hs)
    unfold mergeSplitsAux
    by_cases hcond : len + split.length > t.chunk_size ∧ current ≠ []
    · rw [if_pos hcond]
      obtain ⟨hchain', hhead'⟩ := ih
        (if overlapKeep t (joinChunks t current) ≠ [] ∧ split ≠ [] then
          [overlapKeep t (joinChunks t current), split]
        else [split])
        ((overlapKeep t (joinChunks t current)).length + split.length) hrest
      constructor
      · rw [List.chain'_cons']
        refine ⟨?_, hchain'⟩
        intro y hy
        have hjoin := hhead' y hy
        by_cases hO : overlapKeep t (joinChunks t current) = []
        · rw [hO]
          exact List.nil_prefix
        · rw [if_pos ⟨hO, hsplit⟩] at hjoin
          exact (prefix_joinChunks_pair t _ split).trans hjoin
      · intro x hx
        cases hx
        exact List.prefix_refl _
    · rw [if_neg hcond]
      obtain ⟨hchain', hhead'⟩ := ih (current ++ [split]) (len + split.length) hrest
      refine ⟨hchain', ?_⟩
      intro x hx
      exact (joinChunks_prefix_snoc t current split).trans (hhead' x hx)

/-- Claim C8 (corrected, counterexample): with `chunk_size = 5`,
`chunk_overlap = 3` and the default separators, the document
`"abcde fghi\n\n\n\njk"` splits into three chunks, and the trailing 3
characters `"ghi"` of the second chunk do not appear as a prefix of —
indeed anywhere inside — the third chunk `" jk"`: the empty piece produced
by the `"\n\n\n\n"` run reset the chunk under construction, and a
whitespace-only intermediate chunk was dropped by the final filter. -/
theorem chunk_overlap_counterexample :
    splitText ⟨5, 3, defaultSeparators⟩
        ['a', 'b', 'c', 'd', 'e', ' ', 'f', 'g', 'h', 'i', '\n', '\n', '\n', '\n', 'j', 'k']
      = [['a', 'b', 'c', 'd', 'e'], ['c', 'd', 'e', ' ', 'f', 'g', 'h', 'i'],
         [' ', 'j', 'k']] ∧
    pyTakeLast 3 ['c', 'd', 'e', ' ', 'f', 'g', 'h', 'i'] = ['g', 'h', 'i'] ∧
    ¬ ((['g', 'h', 'i'] : List Char) <:+: [' ', 'j', 'k']) := by
  decide

/-- Claim C8 (amended): for every splitter configuration and every list of
nonempty pieces, consecutive chunks of the merge pass output (before the
final whitespace filter) satisfy overlap continuity: the trailing
`chunk_overlap` characters of chunk `i` (all of chunk `i` when it is
shorter, or when `chunk_overlap = 0`) are a prefix of chunk `i+1`.  On full
`split_text` output the property can fail, because the recursive splitter
can emit empty pieces (which reset the chunk under construction without an
overlap seed) and the final filter can drop whitespace-only chunks. -/
theorem chunk_overlap_continuity (t : TextSplitter) (splits : List (List Char))
    (hne : ∀ s_ ∈ splits, s_ ≠ []) :
    List.Chain' (fun a b => overlapKeep t a <+: b) (mergeSplitsAux t splits [] 0) :=
  (mergeSplitsAux_chain t splits [] 0 hne).1

/-- Claim C8 amended-theorem witness. -/
theorem chunk_overlap_continuity_witness :
    (∀ s_ ∈ [['a', 'b'], ['c', 'd'], ['e', 'f']], s_ ≠ ([] : List Char)) ∧
    List.Chain' (fun a b => overlapKeep ⟨3, 1, defaultSeparators⟩ a <+: b)
      (mergeSplitsAux ⟨3, 1, defaultSeparators⟩ [['a', 'b'], ['c', 'd'], ['e', 'f']] [] 0) :=
  ⟨by decide,
    chunk_overlap_continuity ⟨3, 1, defaultSeparators⟩
      [['a', 'b'], ['c', 'd'], ['e', 'f']] (by decide)⟩

/-- Claim C6 amended-theorem witness. -/
theorem from_documents_row_count_unchecked_witness :
    (np2d (EmbeddingProvider.embed_documents ⟨fun _ => [[(1 : ℚ)]], fun _ => [(1 : ℚ)]⟩
        (([⟨['a'], []⟩, ⟨['b'], []⟩] : List Document).map (fun d => d.page_content)))
      = some (1, [[(1 : ℚ)]])) ∧
    ∃ s, from_documents [⟨['a'], []⟩, ⟨['b'], []⟩]
        ⟨fun _ => [[(1 : ℚ)]], fun _ => [(1 : ℚ)]⟩ = .ok s ∧
      s.index.vectors.length = [[(1 : ℚ)]].length ∧
      dictLen s.docstore = ([⟨['a'], []⟩, ⟨['b'], []⟩] : List Document).length :=
  ⟨rfl, from_documents_row_count_unchecked _ _ 1 [[(1 : ℚ)]] rfl⟩

end ArchAI
